import Mathlib

set_option maxRecDepth 100000

namespace MediChat

/-! ## Text normalization: model of clean_text from src/app/pdf_utils.py -/

/-- Whitespace class of the Python regex class \s and of str.strip / str.rstrip,
restricted to the ASCII whitespace characters (the Unicode whitespace code
points accepted by Python are not modelled). -/
def pyWs (c : Char) : Bool :=
  c == ' ' || c == '\t' || c == '\n' || c == '\r' || c == '\x0b' || c == '\x0c'

/-- The tag regex <[^>]+> matches at the position of c exactly when c is '<',
the next character exists and is not '>', and a '>' occurs later. -/
def tagGuard (c : Char) (rest : List Char) : Bool :=
  c == '<' && !(rest.takeWhile (fun d => d != '>')).isEmpty && rest.contains '>'

/-- Model of re.sub applied with pattern <[^>]+> and empty replacement
(first substitution in clean_text): scan left to right; where the tag
pattern matches, drop everything through the first following '>' and
continue after it; otherwise keep the character.  The fuel argument only
bounds the recursion; fuel at least the input length is always sufficient,
and exhausted fuel returns the remaining input unchanged. -/
def removeTagsF : Nat → List Char → List Char
  | 0, s => s
  | _ + 1, [] => []
  | fuel + 1, c :: rest =>
    if tagGuard c rest then
      removeTagsF fuel ((rest.dropWhile (fun d => d != '>')).drop 1)
    else
      c :: removeTagsF fuel rest

/-- Model of re.sub applied with pattern \s+ and replacement by one space
(second substitution in clean_text): each maximal run of whitespace becomes
a single space. -/
def collapseWsF : Nat → List Char → List Char
  | 0, s => s
  | _ + 1, [] => []
  | fuel + 1, c :: rest =>
    if pyWs c then
      ' ' :: collapseWsF fuel (rest.dropWhile pyWs)
    else
      c :: collapseWsF fuel rest

/-- Model of re.sub applied with the newline-blank-newline pattern of
clean_text and replacement by one newline: at a newline, the greedy inner \s*
consumes through the last newline of the following whitespace run when one
exists; the whole match is replaced by a single newline and scanning resumes
after it. -/
def nlSubF : Nat → List Char → List Char
  | 0, s => s
  | _ + 1, [] => []
  | fuel + 1, c :: rest =>
    if c == '\n' && (rest.takeWhile pyWs).contains '\n' then
      '\n' :: nlSubF fuel
        (((rest.takeWhile pyWs).reverse.takeWhile (fun d => d != '\n')).reverse
          ++ rest.drop (rest.takeWhile pyWs).length)
    else
      c :: nlSubF fuel rest

/-- Remove trailing whitespace, as Python str.rstrip with no argument. -/
def rstripL (l : List Char) : List Char := (l.reverse.dropWhile pyWs).reverse

/-- Remove leading and trailing whitespace, as Python str.strip. -/
def stripL (l : List Char) : List Char := rstripL (l.dropWhile pyWs)

def removeTags (l : List Char) : List Char := removeTagsF l.length l

def collapseWs (l : List Char) : List Char := collapseWsF l.length l

def nlSub (l : List Char) : List Char := nlSubF l.length l

/-- Composition of the three substitutions and the final strip of clean_text. -/
def cleanList (l : List Char) : List Char := stripL (nlSub (collapseWs (removeTags l)))

/-- Model of clean_text (src/app/pdf_utils.py lines 6-23): empty input is
returned unchanged; otherwise HTML-tag-like substrings are removed, runs of
whitespace are collapsed to single spaces, blank lines are collapsed, and the
result is stripped. -/
def clean_text (s : String) : String :=
  if s = "" then "" else ⟨cleanList s.data⟩

/-- No position of the list matches the tag regex of clean_text. -/
def tagFreeB : List Char → Bool
  | [] => true
  | c :: rest => !tagGuard c rest && tagFreeB rest

/-- Whitespace normal form after the collapsing substitution of clean_text:
every whitespace character is a single space never followed by further
whitespace. -/
def wsNormB : List Char → Bool
  | [] => true
  | [c] => !pyWs c || c == ' '
  | c :: d :: rest => (!pyWs c || (c == ' ' && !pyWs d)) && wsNormB (d :: rest)

/-- Model of extract_text_from_pdf (src/app/pdf_utils.py lines 25-32): the
pages' extracted texts are concatenated onto an initial single space and the
result is cleaned. -/
def extract_text_from_pdf (pages : List String) : String :=
  clean_text (pages.foldl (fun a p => a ++ p) " ")

/-! ## MD5 (hashlib.md5 ... hexdigest()), used by generate_document_key -/

def md5K : List Nat :=
  [0xd76aa478, 0xe8c7b756, 0x242070db, 0xc1bdceee,
   0xf57c0faf, 0x4787c62a, 0xa8304613, 0xfd469501,
   0x698098d8, 0x8b44f7af, 0xffff5bb1, 0x895cd7be,
   0x6b901122, 0xfd987193, 0xa679438e, 0x49b40821,
   0xf61e2562, 0xc040b340, 0x265e5a51, 0xe9b6c7aa,
   0xd62f105d, 0x02441453, 0xd8a1e681, 0xe7d3fbc8,
   0x21e1cde6, 0xc33707d6, 0xf4d50d87, 0x455a14ed,
   0xa9e3e905, 0xfcefa3f8, 0x676f02d9, 0x8d2a4c8a,
   0xfffa3942, 0x8771f681, 0x6d9d6122, 0xfde5380c,
   0xa4beea44, 0x4bdecfa9, 0xf6bb4b60, 0xbebfbc70,
   0x289b7ec6, 0xeaa127fa, 0xd4ef3085, 0x04881d05,
   0xd9d4d039, 0xe6db99e5, 0x1fa27cf8, 0xc4ac5665,
   0xf4292244, 0x432aff97, 0xab9423a7, 0xfc93a039,
   0x655b59c3, 0x8f0ccc92, 0xffeff47d, 0x85845dd1,
   0x6fa87e4f, 0xfe2ce6e0, 0xa3014314, 0x4e0811a1,
   0xf7537e82, 0xbd3af235, 0x2ad7d2bb, 0xeb86d391]

def md5S : List Nat :=
  [7, 12, 17, 22, 7, 12, 17, 22, 7, 12, 17, 22, 7, 12, 17, 22,
   5, 9, 14, 20, 5, 9, 14, 20, 5, 9, 14, 20, 5, 9, 14, 20,
   4, 11, 16, 23, 4, 11, 16, 23, 4, 11, 16, 23, 4, 11, 16, 23,
   6, 10, 15, 21, 6, 10, 15, 21, 6, 10, 15, 21, 6, 10, 15, 21]

def w32 : Nat := 4294967296

def not32 (x : Nat) : Nat := x ^^^ 0xffffffff

def rotl32 (x s : Nat) : Nat := ((x <<< s) % w32) ||| (x >>> (32 - s))

def leBytes : Nat → Nat → List Nat
  | 0, _ => []
  | k + 1, n => n % 256 :: leBytes k (n / 256)

/-- MD5 padding: append 0x80, zero-pad to 56 mod 64, append the 64-bit
little-endian bit length. -/
def md5Pad (msg : List Nat) : List Nat :=
  msg ++ 0x80 :: List.replicate ((119 - msg.length % 64) % 64) 0
      ++ leBytes 8 (msg.length * 8 % 2 ^ 64)

/-- Little-endian 32-bit words from a list of bytes. -/
def leWords : List Nat → List Nat
  | b0 :: b1 :: b2 :: b3 :: rest =>
    (b0 + 256 * (b1 + 256 * (b2 + 256 * b3))) :: leWords rest
  | _ => []

def chunks64F : Nat → List Nat → List (List Nat)
  | 0, _ => []
  | _ + 1, [] => []
  | fuel + 1, l => l.take 64 :: chunks64F fuel (l.drop 64)

def md5FG (b c d i : Nat) : Nat × Nat :=
  if i < 16 then ((b &&& c) ||| (not32 b &&& d), i)
  else if i < 32 then ((d &&& b) ||| (not32 d &&& c), (5 * i + 1) % 16)
  else if i < 48 then (b ^^^ c ^^^ d, (3 * i + 5) % 16)
  else (c ^^^ (b ||| not32 d), (7 * i) % 16)

def md5Round (M : List Nat) (st : Nat × Nat × Nat × Nat) (i : Nat) : Nat × Nat × Nat × Nat :=
  let fg := md5FG st.2.1 st.2.2.1 st.2.2.2 i
  let f := (fg.1 + st.1 + md5K.getD i 0 + M.getD fg.2 0) % w32
  (st.2.2.2, (st.2.1 + rotl32 f (md5S.getD i 0)) % w32, st.2.1, st.2.2.1)

def md5Block (st : Nat × Nat × Nat × Nat) (block : List Nat) : Nat × Nat × Nat × Nat :=
  let r := (List.range 64).foldl (md5Round (leWords block)) st
  ((st.1 + r.1) % w32, (st.2.1 + r.2.1) % w32, (st.2.2.1 + r.2.2.1) % w32,
   (st.2.2.2 + r.2.2.2) % w32)

def md5Bytes (msg : List Nat) : List Nat :=
  let padded := md5Pad msg
  let st := (chunks64F padded.length padded).foldl md5Block
    (0x67452301, 0xefcdab89, 0x98badcfe, 0x10325476)
  leBytes 4 st.1 ++ leBytes 4 st.2.1 ++ leBytes 4 st.2.2.1 ++ leBytes 4 st.2.2.2

def hexChar (n : Nat) : Char := if n < 10 then Char.ofNat (48 + n) else Char.ofNat (87 + n)

def byteHex (b : Nat) : List Char := [hexChar (b / 16), hexChar (b % 16)]

/-- UTF-8 encoding of one character, modelling Python str.encode(). -/
def utf8Bytes (c : Char) : List Nat :=
  let n := c.toNat
  if n < 0x80 then [n]
  else if n < 0x800 then [0xc0 + n / 64, 0x80 + n % 64]
  else if n < 0x10000 then [0xe0 + n / 4096, 0x80 + n / 64 % 64, 0x80 + n % 64]
  else [0xf0 + n / 262144, 0x80 + n / 4096 % 64, 0x80 + n / 64 % 64, 0x80 + n % 64]

/-- Model of hashlib.md5(text.encode()).hexdigest(). -/
def md5Hex (s : String) : String := ⟨(md5Bytes (s.data.flatMap utf8Bytes)).flatMap byteHex⟩

/-! ## Document keys: src/app/s3_utils.py -/

/-- Characters kept by the filename sanitizer in generate_document_key
(Python isalnum is modelled over ASCII alphanumerics). -/
def keepFilenameChar (c : Char) : Bool :=
  c.isAlphanum || c == ' ' || c == '-' || c == '_' || c == '.'

/-- Model of the clean_filename expression of generate_document_key
(src/app/s3_utils.py line 41): keep alphanumerics, space, dash, underscore
and dot, then strip trailing whitespace. -/
def clean_filename (filename : String) : String :=
  ⟨rstripL (filename.data.filter keepFilenameChar)⟩

/-- Model of generate_document_key (src/app/s3_utils.py lines 36-44): the key
is documents/ followed by the first 8 hex digits of the MD5 of the content
text, an underscore, and the sanitized filename. -/
def generate_document_key (filename content : String) : String :=
  "documents/" ++ (md5Hex content).take 8 ++ "_" ++ clean_filename filename

/-! ## S3 document store operations: src/app/s3_utils.py

The boto3 calls are external; each operation takes the backend's behavior for
its one network call as an explicit outcome argument (success payload, a
botocore ClientError with its error code, missing credentials, or another
raised exception), and a clientOk flag modelling whether get_s3_client
returned a client. -/

inductive S3Outcome (α : Type) where
  | ok (val : α)
  | clientError (code : String) (msg : String)
  | noCredentials
  | otherExn (msg : String)
deriving DecidableEq, Repr

inductive UploadResult where
  | ok (s3_key : String) (s3_url : String) (filename : String)
  | err (msg : String)
deriving DecidableEq, Repr

def S3_BUCKET : String := "medibot-euron-2025"

/-- Model of upload_document_to_s3 (src/app/s3_utils.py lines 46-87):
every backend failure is caught and returned as an error dictionary. -/
def upload_document_to_s3 (clientOk : Bool) (putOutcome : S3Outcome Unit)
    (_fileContent : List Nat) (filename contentText : String) : UploadResult :=
  if !clientOk then .err "Failed to create S3 client"
  else
    match putOutcome with
    | .ok _ =>
      let key := generate_document_key filename contentText
      .ok key ("s3://" ++ S3_BUCKET ++ "/" ++ key) filename
    | .clientError code _ => .err ("S3 Error: " ++ code)
    | .noCredentials => .err "AWS credentials not found"
    | .otherExn msg => .err msg

inductive DownloadResult where
  | ok (content : List Nat) (filename : String) (content_type : String)
  | err (msg : String)
deriving DecidableEq, Repr

/-- Model of download_document_from_s3 (src/app/s3_utils.py lines 129-157).
The get_object payload is the body bytes together with the optional filename
metadata and optional content type.  NoCredentialsError is caught there by
the generic except branch, which reports str of the exception. -/
def download_document_from_s3 (clientOk : Bool)
    (getOutcome : S3Outcome (List Nat × Option String × Option String))
    (s3_key : String) : DownloadResult :=
  if !clientOk then .err "Failed to create S3 client"
  else
    match getOutcome with
    | .ok (content, metaName, contentType) =>
      .ok content (metaName.getD (((s3_key.splitOn "/").getLast?).getD s3_key))
        (contentType.getD "application/pdf")
    | .clientError code _ => .err ("S3 Error: " ++ code)
    | .noCredentials => .err "Unable to locate credentials"
    | .otherExn msg => .err msg

/-- One listed S3 object: key, size, and the optional filename metadata
returned by head_object (none when head_object failed). -/
structure ListedObject where
  key : String
  size : Nat
  metaName : Option String
deriving DecidableEq, Repr

/-- Model of list_documents_in_s3 (src/app/s3_utils.py lines 89-127): any
failure, including a missing client, yields the empty list. -/
def list_documents_in_s3 (clientOk : Bool)
    (listOutcome : S3Outcome (List ListedObject)) : List (String × String × Nat) :=
  if !clientOk then []
  else
    match listOutcome with
    | .ok objs => objs.map (fun o => (o.key, o.metaName.getD (((o.key.splitOn "/").getLast?).getD o.key), o.size))
    | _ => []

inductive DeleteResult where
  | ok
  | err (msg : String)
deriving DecidableEq, Repr

/-- Model of delete_document_from_s3 (src/app/s3_utils.py lines 189-206):
every exception, ClientError and NoCredentialsError included, is caught by
the one generic except branch, which reports str of the exception. -/
def delete_document_from_s3 (clientOk : Bool) (delOutcome : S3Outcome Unit)
    (_s3_key : String) : DeleteResult :=
  if !clientOk then .err "Failed to create S3 client"
  else
    match delOutcome with
    | .ok _ => .ok
    | .clientError _ msg => .err msg
    | .noCredentials => .err "Unable to locate credentials"
    | .otherExn msg => .err msg

/-- Outcome of the head_object call of the exists-check: the object was
found, a 404 ClientError, another ClientError, or some other exception. -/
inductive HeadOutcome where
  | found
  | notFound
  | clientError (msg : String)
  | otherExn (msg : String)
deriving DecidableEq, Repr

structure CheckResult where
  exists_ : Bool
  s3_key : Option String
  error : Option String
deriving DecidableEq, Repr

/-- Model of check_document_exists_in_s3 (src/app/s3_utils.py lines 159-187):
it recomputes the upload key and probes it with head_object; every failure
degrades to exists = false, with the error recorded for non-404 failures. -/
def check_document_exists_in_s3 (clientOk : Bool) (headOutcome : HeadOutcome)
    (filename contentText : String) : CheckResult :=
  if !clientOk then ⟨false, none, some "Failed to create S3 client"⟩
  else
    let key := generate_document_key filename contentText
    match headOutcome with
    | .found => ⟨true, some key, none⟩
    | .notFound => ⟨false, none, none⟩
    | .clientError msg => ⟨false, none, some msg⟩
    | .otherExn msg => ⟨false, none, some msg⟩

/-! ## The per-upload pipeline: process_uploaded_files_with_s3 -/

/-- Outcome of a text extraction call: the extracted text, or a raised
exception carrying its message. -/
inductive ExtractOutcome where
  | ok (text : String)
  | raised (msg : String)
deriving DecidableEq, Repr

/-- One uploaded file together with the behavior of the external calls made
for it: extracted is the outcome of uploaded_file.read() plus
extract_text_func (raised models an exception), clientOk and putOutcome
drive upload_document_to_s3. -/
structure FileSpec where
  name : String
  bytes : List Nat
  extracted : ExtractOutcome
  clientOk : Bool
  putOutcome : S3Outcome Unit
deriving DecidableEq, Repr

/-- Model of the results dictionary of process_uploaded_files_with_s3:
filename/key pairs for uploaded and already-present documents,
filename/error pairs for failures, and the extracted texts. -/
structure S3ProcessResult where
  uploaded_to_s3 : List (String × String)
  already_in_s3 : List (String × String)
  failed_uploads : List (String × String)
  all_texts : List String
deriving DecidableEq, Repr

/-- Keys of the results dictionary literal at src/app/s3_utils.py
lines 211-216, as the caller observes them. -/
def process_result_dict_keys : List String :=
  ["uploaded_to_s3", "already_in_s3", "failed_uploads", "all_texts"]

def emptyResult : S3ProcessResult := ⟨[], [], [], []⟩

def combineResults (r q : S3ProcessResult) : S3ProcessResult :=
  ⟨r.uploaded_to_s3 ++ q.uploaded_to_s3, r.already_in_s3 ++ q.already_in_s3,
   r.failed_uploads ++ q.failed_uploads, r.all_texts ++ q.all_texts⟩

/-- One iteration of the loop of process_uploaded_files_with_s3
(src/app/s3_utils.py lines 218-265).  The S3 key set is threaded as state:
the exists-check is key membership (backend errors in the check degrade to
not-found in the source and are not modelled separately), and a successful
upload adds its key.  A read/extract exception records the file as failed
and nothing else. -/
def processOne (acc : S3ProcessResult × List String) (f : FileSpec) :
    S3ProcessResult × List String :=
  let r := acc.1
  let s3 := acc.2
  match f.extracted with
  | .raised e => ({ r with failed_uploads := r.failed_uploads ++ [(f.name, e)] }, s3)
  | .ok raw =>
    let text := clean_text raw
    let key := generate_document_key f.name text
    if key ∈ s3 then
      ({ r with already_in_s3 := r.already_in_s3 ++ [(f.name, key)],
                all_texts := r.all_texts ++ [text] }, s3)
    else
      match upload_document_to_s3 f.clientOk f.putOutcome f.bytes f.name text with
      | .ok k _ _ =>
        ({ r with uploaded_to_s3 := r.uploaded_to_s3 ++ [(f.name, k)],
                  all_texts := r.all_texts ++ [text] }, k :: s3)
      | .err e =>
        ({ r with failed_uploads := r.failed_uploads ++ [(f.name, e)],
                  all_texts := r.all_texts ++ [text] }, s3)

/-- Model of process_uploaded_files_with_s3 (src/app/s3_utils.py
lines 208-277), given the initially present S3 keys. -/
def process_uploaded_files_with_s3 (s3 : List String) (files : List FileSpec) :
    S3ProcessResult :=
  (files.foldl processOne (emptyResult, s3)).1

/-! ## Bulk re-indexing: process_all_s3_documents_for_vector_storage -/

/-- One listed S3 document with the behavior of the external calls made for
it: the download outcome and the outcome of extract_text_func on the
downloaded bytes. -/
structure S3DocSpec where
  key : String
  filename : String
  clientOk : Bool
  getOutcome : S3Outcome (List Nat × Option String × Option String)
  extracted : ExtractOutcome
deriving DecidableEq, Repr

/-- Model of the loop of process_all_s3_documents_for_vector_storage
(src/app/s3_utils.py lines 304-328): per-document failures (download error,
extraction exception, empty text) skip that document and processing
continues. -/
def processAllLoop : List S3DocSpec → List String
  | [] => []
  | d :: rest =>
    let tail := processAllLoop rest
    match download_document_from_s3 d.clientOk d.getOutcome d.key with
    | .err _ => tail
    | .ok _ _ _ =>
      match d.extracted with
      | .raised _ => tail
      | .ok raw =>
        let text := clean_text raw
        if text ≠ "" ∧ stripL text.data ≠ [] then text :: tail else tail

/-- Model of process_all_s3_documents_for_vector_storage (src/app/s3_utils.py
lines 288-335), applied to the documents returned by the listing. -/
def process_all_s3_documents_for_vector_storage (docs : List S3DocSpec) : List String :=
  processAllLoop docs

/-! ## Chunking

The chunker the repository uses is langchain's RecursiveCharacterTextSplitter
(src/main.py lines 104-113); its code is not part of this repository.
Modelled from the spec: a sliding window over the text advancing by
chunk_size - chunk_overlap characters each step, each window truncated to
chunk_size, the last window possibly shorter, and empty text yielding no
chunks. -/

/-- Emit the window starting the list, then, while a full window does not yet
reach the end of the text, advance by step characters.  Fuel at least the
text length is sufficient when step ≥ 1. -/
def chunkLoop (C step : Nat) : Nat → List Char → List (List Char)
  | 0, _ => []
  | fuel + 1, s =>
    s.take C :: (if C < s.length then chunkLoop C step fuel (s.drop step) else [])

/-- Modelled from the spec: split_text of the configured
RecursiveCharacterTextSplitter as the sliding-window chunker of spec section
4.3, with chunk_size C and overlap O. -/
def split_text (C O : Nat) (s : List Char) : List (List Char) :=
  if s.length = 0 then [] else chunkLoop C (C - O) s.length s

/-- Concatenation of the chunks' non-overlapping portions: all but the last
chunk contribute their first step characters, the last contributes itself. -/
def reconstruct (step : Nat) : List (List Char) → List Char
  | [] => []
  | [c] => c
  | c :: cs => c.take step ++ reconstruct step cs

/-! ## Embeddings and the vector store: src/app/vectorstore_utils.py -/

/-- Behavior of the one HTTP request of get_embeddings for a given batch:
a response with its status code and its parsed body (none models a body
without a well-formed data list of embeddings), or a raised exception. -/
inductive EmbResult (α : Type) where
  | response (status : Nat) (body : Option (List (List α)))
  | raised
deriving DecidableEq, Repr

/-- Model of get_embeddings (src/app/vectorstore_utils.py lines 26-60): the
embeddings of a 200 response with a well-formed body, and the empty list in
every other case. -/
def get_embeddings : EmbResult α → List (List α)
  | .response status body =>
    if status = 200 then
      match body with
      | some vs => vs
      | none => []
    else []
  | .raised => []

/-- State of the remote ChromaDB collection: absent, or present with its
stored (document, embedding) entries.  The batch ids of create_chroma_collection
are built with the salted Python hash and are not modelled; no claim
mentions them. -/
inductive CollState (α : Type) where
  | missing
  | present (entries : List (String × List α))
deriving DecidableEq, Repr

/-- Model of ensure_collection_exists (src/app/vectorstore_utils.py
lines 135-152): an existing collection is returned unchanged; a missing one
is created empty when the backend allows it (createOk), and every failure
yields none with the state unchanged. -/
def ensure_collection_exists (createOk : Bool) :
    CollState α → CollState α × Option (List (String × List α))
  | .present es => (.present es, some es)
  | .missing => if createOk then (.present [], some []) else (.missing, none)

/-- One batch iteration of create_chroma_collection (src/app/vectorstore_utils.py
lines 74-107): the batch texts are cleaned, embedded via the backend, the
batch is skipped entirely when the embedding call produced nothing, both
lists are truncated to the shorter length when the counts differ, and the
paired documents and embeddings are added; the second component is the
contribution to total_stored. -/
def processBatch (emb : List String → EmbResult α) (batch0 : List String) :
    List (String × List α) × Nat :=
  let batch := batch0.map clean_text
  let embeddings := get_embeddings (emb batch)
  if embeddings.isEmpty then ([], 0)
  else if embeddings.length ≠ batch.length then
    let n := min embeddings.length batch.length
    ((batch.take n).zip (embeddings.take n), n)
  else
    (batch.zip embeddings, batch.length)

/-- The batching loop of create_chroma_collection over texts, batchSize B:
the loop of range(0, len(texts), B) taken B texts at a time.  Fuel at least
the number of texts is sufficient when B ≥ 1. -/
def ccBatchesF (emb : List String → EmbResult α) (B : Nat) :
    Nat → List String → List (String × List α) × Nat
  | 0, _ => ([], 0)
  | _ + 1, [] => ([], 0)
  | fuel + 1, p :: rest =>
    let c := processBatch emb ((p :: rest).take B)
    let r := ccBatchesF emb B fuel ((p :: rest).drop B)
    (c.1 ++ r.1, c.2 + r.2)

/-- The slices of texts the loop of create_chroma_collection embeds, B texts
at a time. -/
def slicesF (B : Nat) : Nat → List String → List (List String)
  | 0, _ => []
  | _ + 1, [] => []
  | fuel + 1, p :: rest => (p :: rest).take B :: slicesF B fuel ((p :: rest).drop B)

/-- Model of create_chroma_collection (src/app/vectorstore_utils.py
lines 62-116): ensure the collection, then add the batches; the Python
function returns the collection handle (modelled by its entry list) or None,
and the total_stored counter is internal (it is only printed). -/
def create_chroma_collection (createOk : Bool) (emb : List String → EmbResult α)
    (B : Nat) (texts : List String) (st : CollState α) :
    CollState α × Option (List (String × List α)) :=
  match ensure_collection_exists createOk st with
  | (st', none) => (st', none)
  | (_, some es) =>
    let r := ccBatchesF emb B texts.length texts
    (.present (es ++ r.1), some (es ++ r.1))

/-- Model of retrieve_relevant_docs (src/app/vectorstore_utils.py
lines 154-196): ensure the collection, embed the query, bail out with [] on
a missing collection, an empty embedding list or an empty first embedding,
and return the first documents list of the backend reply (qres none models
collection.query raising, caught by the outer except). -/
def retrieve_relevant_docs (createOk : Bool) (emb : List String → EmbResult α)
    (qres : Option (List (List String))) (st : CollState α)
    (query : String) (_k : Nat) : List String :=
  match ensure_collection_exists createOk st with
  | (_, none) => []
  | (_, some _) =>
    match get_embeddings (emb [query]) with
    | [] => []
    | v :: _ =>
      if v.isEmpty then []
      else
        match qres with
        | none => []
        | some [] => []
        | some (d :: _) => d

/-- A listed document whose download or whose text extraction fails. -/
def docFails (d : S3DocSpec) : Prop :=
  (∃ m, download_document_from_s3 d.clientOk d.getOutcome d.key = .err m) ∨
  (∃ m, d.extracted = .raised m)

/-- Backend returning three vectors regardless of the request. -/
def embThreeVectors : List String → EmbResult Nat :=
  fun _ => .response 200 (some [[1], [2], [3]])

/-! ## Claim C1: storage keys and content-based deduplication -/

/-- C1 (amended): for identical content the storage keys of two uploads agree
exactly when the sanitized filenames agree — the key embeds the sanitized
filename next to the content hash, so the same content under a different
filename gets a different key. -/
theorem C1_key_eq_iff_same_sanitized_filename (f1 f2 c : String) :
    generate_document_key f1 c = generate_document_key f2 c ↔
      clean_filename f1 = clean_filename f2 := by
  constructor
  · intro h
    have hd := congrArg String.data h
    simp only [generate_document_key, String.data_append] at hd
    exact String.ext (List.append_cancel_left hd)
  · intro h
    simp only [generate_document_key, h]

/-- C1 counterexample: the same content "hello" under the filenames a.pdf and
b.pdf yields two different storage keys, the exists-check therefore misses
the duplicate, and the pipeline stores a second blob instead of recording the
second upload as already present. -/
theorem C1_counterexample :
    generate_document_key "a.pdf" "hello" ≠ generate_document_key "b.pdf" "hello" ∧
    (process_uploaded_files_with_s3 []
      [⟨"a.pdf", [1], .ok "hello", true, .ok ()⟩,
       ⟨"b.pdf", [1], .ok "hello", true, .ok ()⟩]).already_in_s3 = [] ∧
    (process_uploaded_files_with_s3 []
      [⟨"a.pdf", [1], .ok "hello", true, .ok ()⟩,
       ⟨"b.pdf", [1], .ok "hello", true, .ok ()⟩]).uploaded_to_s3
      = [("a.pdf", "documents/5d41402a_a.pdf"), ("b.pdf", "documents/5d41402a_b.pdf")] := by
  decide

/-! ## Claim C7: the Missing/Present recovery state machine -/

/-- C7: ensure_collection_exists creates a missing collection (Missing to
Present), is a no-op on a present one, and both create_chroma_collection and
retrieve_relevant_docs enter ensure before touching the collection, so a
call made while the collection is missing behaves as if the collection had
just been created empty, and fails only when that one creation fails. -/
theorem C7_collection_state_machine {α β : Type} (es : List (String × List α))
    (createOk : Bool) (emb : List String → EmbResult α)
    (embq : List String → EmbResult β) (B : Nat) (texts : List String)
    (qres : Option (List (List String))) (q : String) (k : Nat) :
    ensure_collection_exists true (.missing : CollState α) = (.present [], some []) ∧
    ensure_collection_exists createOk (.present es) = (.present es, some es) ∧
    ensure_collection_exists false (.missing : CollState α) = (.missing, none) ∧
    create_chroma_collection true emb B texts .missing
      = create_chroma_collection true emb B texts (.present []) ∧
    create_chroma_collection false emb B texts .missing = (.missing, none) ∧
    retrieve_relevant_docs true embq qres (.missing : CollState β) q k
      = retrieve_relevant_docs true embq qres (.present []) q k ∧
    retrieve_relevant_docs false embq qres (.missing : CollState β) q k = [] :=
  ⟨rfl, rfl, rfl, rfl, rfl, rfl, rfl⟩

/-! ## Claim C8: DocumentStore failure reporting, bulk continuation -/

theorem processAllLoop_cons_of_fails (d : S3DocSpec) (hd : docFails d)
    (rest : List S3DocSpec) : processAllLoop (d :: rest) = processAllLoop rest := by
  rcases hd with ⟨m, hm⟩ | ⟨m, hm⟩
  · simp only [processAllLoop, hm]
  · cases hdl : download_document_from_s3 d.clientOk d.getOutcome d.key with
    | err _ => simp only [processAllLoop, hdl]
    | ok _ _ _ => simp only [processAllLoop, hdl, hm]

theorem processAllLoop_skip (d : S3DocSpec) (hd : docFails d)
    (pre post : List S3DocSpec) :
    processAllLoop (pre ++ d :: post) = processAllLoop (pre ++ post) := by
  induction pre with
  | nil => simpa using processAllLoop_cons_of_fails d hd post
  | cons x xs ih =>
    simp only [List.cons_append, processAllLoop, List.append_eq, ih]

/-- C8 (amended): upload, download, delete and the exists-check report every
backend error (missing client, ClientError, missing credentials, other
exception) as a failure-describing result value and never raise; listing
degrades to the empty list on any backend error, indistinguishable from an
empty bucket; and the bulk re-indexing loop continues past any single
document whose download or extraction fails. -/
theorem C8_error_reporting :
    (∀ (po : S3Outcome Unit) (fc : List Nat) (fn ct : String),
        upload_document_to_s3 false po fc fn ct = .err "Failed to create S3 client") ∧
    (∀ (code msg : String) (fc : List Nat) (fn ct : String),
        upload_document_to_s3 true (.clientError code msg) fc fn ct
          = .err ("S3 Error: " ++ code)) ∧
    (∀ (fc : List Nat) (fn ct : String),
        upload_document_to_s3 true .noCredentials fc fn ct
          = .err "AWS credentials not found") ∧
    (∀ (m : String) (fc : List Nat) (fn ct : String),
        upload_document_to_s3 true (.otherExn m) fc fn ct = .err m) ∧
    (∀ (g : S3Outcome (List Nat × Option String × Option String)) (k : String),
        download_document_from_s3 false g k = .err "Failed to create S3 client") ∧
    (∀ (code msg k : String),
        download_document_from_s3 true (.clientError code msg) k
          = .err ("S3 Error: " ++ code)) ∧
    (∀ (m k : String), download_document_from_s3 true (.otherExn m) k = .err m) ∧
    (∀ (dl : S3Outcome Unit) (k : String),
        delete_document_from_s3 false dl k = .err "Failed to create S3 client") ∧
    (∀ (m k : String), delete_document_from_s3 true (.otherExn m) k = .err m) ∧
    (∀ (ho : HeadOutcome) (fn ct : String),
        check_document_exists_in_s3 false ho fn ct
          = ⟨false, none, some "Failed to create S3 client"⟩) ∧
    (∀ (m fn ct : String),
        check_document_exists_in_s3 true (.clientError m) fn ct = ⟨false, none, some m⟩) ∧
    (∀ (o : S3Outcome (List ListedObject)), list_documents_in_s3 false o = []) ∧
    (∀ (m : String), list_documents_in_s3 true (.otherExn m) = []) ∧
    (∀ (d : S3DocSpec), docFails d → ∀ (pre post : List S3DocSpec),
        process_all_s3_documents_for_vector_storage (pre ++ d :: post)
          = process_all_s3_documents_for_vector_storage (pre ++ post)) := by
  refine ⟨fun _ _ _ _ => rfl, fun _ _ _ _ _ => rfl, fun _ _ _ => rfl,
    fun _ _ _ _ => rfl, fun _ _ => rfl, fun _ _ _ => rfl, fun _ _ => rfl,
    fun _ _ => rfl, fun _ _ => rfl, fun _ _ _ => rfl, fun _ _ _ => rfl,
    fun _ => rfl, fun _ => rfl, fun d hd pre post => ?_⟩
  exact processAllLoop_skip d hd pre post

/-- C8 witness at concrete inputs: the failing middle document is skipped and
its neighbors are still processed. -/
theorem C8_error_reporting_witness :
    docFails ⟨"documents/x_b.pdf", "b.pdf", true, .otherExn "timeout", .ok "text b"⟩ ∧
    process_all_s3_documents_for_vector_storage
      [⟨"documents/x_a.pdf", "a.pdf", true, .ok ([1], none, none), .ok "text a"⟩,
       ⟨"documents/x_b.pdf", "b.pdf", true, .otherExn "timeout", .ok "text b"⟩,
       ⟨"documents/x_c.pdf", "c.pdf", true, .ok ([2], none, none), .ok "text c"⟩]
      = process_all_s3_documents_for_vector_storage
        [⟨"documents/x_a.pdf", "a.pdf", true, .ok ([1], none, none), .ok "text a"⟩,
         ⟨"documents/x_c.pdf", "c.pdf", true, .ok ([2], none, none), .ok "text c"⟩] :=
  ⟨Or.inl ⟨"timeout", rfl⟩,
    C8_error_reporting.2.2.2.2.2.2.2.2.2.2.2.2.2
      ⟨"documents/x_b.pdf", "b.pdf", true, .otherExn "timeout", .ok "text b"⟩
      (Or.inl ⟨"timeout", rfl⟩)
      [⟨"documents/x_a.pdf", "a.pdf", true, .ok ([1], none, none), .ok "text a"⟩]
      [⟨"documents/x_c.pdf", "c.pdf", true, .ok ([2], none, none), .ok "text c"⟩]⟩

/-- C8 counterexample: a backend failure during listing produces exactly the
same value as successfully listing an empty bucket, so the error is not
reported to the caller as a failure-describing result. -/
theorem C8_counterexample :
    list_documents_in_s3 true (.otherExn "Unable to locate credentials")
      = list_documents_in_s3 true (.ok []) ∧
    list_documents_in_s3 true (.otherExn "Unable to locate credentials") = [] :=
  ⟨rfl, rfl⟩

/-! ## Claim C6: retrieval degrades to the empty answer -/

/-- C6: retrieval returns the empty sequence when the backend reply carries
no documents (an empty collection replies with no document lists), when the
query embedding call fails or produces an empty embedding, when the
collection cannot be ensured, or when the backend query raises; in every
remaining case it returns the reply's first document list, so no backend
behavior makes it raise. -/
theorem C6_retrieval_degrades {α : Type} :
    (∀ (createOk : Bool) (emb : List String → EmbResult α)
        (ds : List (List String)) (st : CollState α) (q : String) (k : Nat),
        retrieve_relevant_docs createOk emb (some ([] :: ds)) st q k = [] ∧
        retrieve_relevant_docs createOk emb (some []) st q k = [] ∧
        retrieve_relevant_docs createOk emb none st q k = []) ∧
    (∀ (createOk : Bool) (emb : List String → EmbResult α)
        (qres : Option (List (List String))) (st : CollState α) (q : String) (k : Nat),
        get_embeddings (emb [q]) = [] →
        retrieve_relevant_docs createOk emb qres st q k = []) ∧
    (∀ (createOk : Bool) (emb : List String → EmbResult α) (tl : List (List α))
        (qres : Option (List (List String))) (st : CollState α) (q : String) (k : Nat),
        get_embeddings (emb [q]) = [] :: tl →
        retrieve_relevant_docs createOk emb qres st q k = []) ∧
    (∀ (createOk : Bool) (emb : List String → EmbResult α)
        (qres : Option (List (List String))) (st : CollState α) (q : String) (k : Nat),
        retrieve_relevant_docs createOk emb qres st q k = [] ∨
        ∃ d ds, qres = some (d :: ds) ∧ retrieve_relevant_docs createOk emb qres st q k = d) := by
  refine ⟨?_, ?_, ?_, ?_⟩
  · intro createOk emb ds st q k
    unfold retrieve_relevant_docs
    rcases hE : ensure_collection_exists createOk st with ⟨st', o⟩
    cases o with
    | none => exact ⟨rfl, rfl, rfl⟩
    | some es =>
      cases hG : get_embeddings (emb [q]) with
      | nil => exact ⟨rfl, rfl, rfl⟩
      | cons v vs =>
        by_cases hv : v.isEmpty <;> simp [hv]
  · intro createOk emb qres st q k hG
    unfold retrieve_relevant_docs
    rcases hE : ensure_collection_exists createOk st with ⟨st', o⟩
    cases o with
    | none => rfl
    | some es => rw [hG]
  · intro createOk emb tl qres st q k hG
    unfold retrieve_relevant_docs
    rcases hE : ensure_collection_exists createOk st with ⟨st', o⟩
    cases o with
    | none => rfl
    | some es => rw [hG]; rfl
  · intro createOk emb qres st q k
    unfold retrieve_relevant_docs
    rcases hE : ensure_collection_exists createOk st with ⟨st', o⟩
    cases o with
    | none => exact Or.inl rfl
    | some es =>
      cases hG : get_embeddings (emb [q]) with
      | nil => exact Or.inl rfl
      | cons v vs =>
        by_cases hv : v.isEmpty
        · simp [hv]
        · cases qres with
          | none => simp [hv]
          | some ls =>
            cases ls with
            | nil => simp [hv]
            | cons d ds => exact Or.inr ⟨d, ds, rfl, by simp [hv]⟩

/-- C6 witness: a failing query-embedding backend produces the empty answer
at concrete inputs. -/
theorem C6_retrieval_degrades_witness :
    get_embeddings ((fun _ => (EmbResult.raised : EmbResult Nat)) ["headache"]) = [] ∧
    retrieve_relevant_docs true (fun _ => (EmbResult.raised : EmbResult Nat))
      (some [["chunk"]]) (.present [("chunk", [1])]) "headache" 10 = [] :=
  ⟨rfl, (C6_retrieval_degrades).2.1 true (fun _ => (EmbResult.raised : EmbResult Nat))
    (some [["chunk"]]) (.present [("chunk", [1])]) "headache" 10 rfl⟩

/-! ## Claim C4: a failed embedding batch is skipped, never fatal -/

theorem ccBatchesF_decomp {α : Type} (emb : List String → EmbResult α) (B : Nat)
    (hB : 1 ≤ B) :
    ∀ (fuel : Nat) (texts : List String), texts.length ≤ fuel →
    ccBatchesF emb B fuel texts
      = ((slicesF B fuel texts).map (processBatch emb)).foldr
          (fun c r => (c.1 ++ r.1, c.2 + r.2)) ([], 0) := by
  intro fuel
  induction fuel with
  | zero =>
    intro texts h
    have : texts = [] := List.length_eq_zero.mp (Nat.le_zero.mp h)
    subst this
    rfl
  | succ fuel ih =>
    intro texts h
    cases texts with
    | nil => rfl
    | cons p rest =>
      simp only [ccBatchesF, slicesF, List.map_cons, List.foldr_cons]
      rw [ih ((p :: rest).drop B)]
      · simp only [List.length_drop, List.length_cons]
        simp only [List.length_cons] at h
        omega

/-- C4: a failing embedding request (non-200 status, malformed body, raised
exception) makes get_embeddings return the empty list; a batch whose
embedding result is empty contributes no index entries and a zero count; the
batching loop is the independent combination of its per-batch contributions,
so one batch's failure leaves every other batch's contribution unchanged;
and with the collection present, create_chroma_collection returns the
collection for every embedding backend, so an embedding failure never aborts
the ingestion. -/
theorem C4_embedding_batch_failure {α : Type} :
    (∀ (status : Nat) (body : Option (List (List α))), status ≠ 200 →
        get_embeddings (.response status body) = []) ∧
    (get_embeddings (.response 200 (none : Option (List (List α)))) = []) ∧
    (get_embeddings (.raised : EmbResult α) = []) ∧
    (∀ (emb : List String → EmbResult α) (batch : List String),
        get_embeddings (emb (batch.map clean_text)) = [] →
        processBatch emb batch = ([], 0)) ∧
    (∀ (emb : List String → EmbResult α) (B fuel : Nat) (texts : List String),
        1 ≤ B → texts.length ≤ fuel →
        ccBatchesF emb B fuel texts
          = ((slicesF B fuel texts).map (processBatch emb)).foldr
              (fun c r => (c.1 ++ r.1, c.2 + r.2)) ([], 0)) ∧
    (∀ (emb : List String → EmbResult α) (B : Nat) (texts : List String)
        (es : List (String × List α)),
        ∃ entries, create_chroma_collection true emb B texts (.present es)
          = (.present (es ++ entries), some (es ++ entries))) := by
  refine ⟨?_, rfl, rfl, ?_, ?_, ?_⟩
  · intro status body h
    simp [get_embeddings, h]
  · intro emb batch h
    simp [processBatch, h]
  · intro emb B fuel texts hB h
    exact ccBatchesF_decomp emb B hB fuel texts h
  · intro emb B texts es
    exact ⟨(ccBatchesF emb B texts.length texts).1, rfl⟩

/-- C4 witness at concrete inputs, including a 404 response and an
all-failing backend over three texts in batches of two. -/
theorem C4_embedding_batch_failure_witness :
    (404 : Nat) ≠ 200 ∧
    get_embeddings (EmbResult.response 404 (some [[1]]) : EmbResult Nat) = [] ∧
    get_embeddings ((fun _ => (EmbResult.response 500 none : EmbResult Nat))
      ((["a"] : List String).map clean_text)) = [] ∧
    processBatch (fun _ => (EmbResult.response 500 none : EmbResult Nat)) ["a"] = ([], 0) ∧
    (1 : Nat) ≤ 2 ∧ (["a", "b", "c"] : List String).length ≤ 3 ∧
    ccBatchesF (fun _ => (EmbResult.raised : EmbResult Nat)) 2 3 ["a", "b", "c"]
      = ((slicesF 2 3 ["a", "b", "c"]).map
          (processBatch (fun _ => (EmbResult.raised : EmbResult Nat)))).foldr
          (fun c r => (c.1 ++ r.1, c.2 + r.2)) ([], 0) :=
  ⟨by decide, C4_embedding_batch_failure.1 404 (some [[1]]) (by decide), rfl,
   C4_embedding_batch_failure.2.2.2.1 (fun _ => (EmbResult.response 500 none : EmbResult Nat))
     ["a"] rfl,
   by decide, by decide,
   C4_embedding_batch_failure.2.2.2.2.1 (fun _ => (EmbResult.raised : EmbResult Nat))
     2 3 ["a", "b", "c"] (by decide) (by decide)⟩

/-! ## Claim C3: count mismatch truncates, never fabricates -/

theorem processBatch_mismatch_eq {α : Type} (emb : List String → EmbResult α)
    (batch : List String)
    (h : (get_embeddings (emb (batch.map clean_text))).length ≠ batch.length) :
    processBatch emb batch
      = (((batch.map clean_text).take
            (min (get_embeddings (emb (batch.map clean_text))).length batch.length)).zip
          ((get_embeddings (emb (batch.map clean_text))).take
            (min (get_embeddings (emb (batch.map clean_text))).length batch.length)),
         min (get_embeddings (emb (batch.map clean_text))).length batch.length) := by
  cases hvs : get_embeddings (emb (batch.map clean_text)) with
  | nil => simp [processBatch, hvs]
  | cons v vs =>
    rw [hvs] at h
    simp only [processBatch, hvs, List.isEmpty_cons, Bool.false_eq_true, if_false,
      List.length_map]
    rw [if_pos h]

/-- C3 (amended): when the backend returns m vectors for a batch of n cleaned
texts with m different from n, exactly min(m, n) document-vector pairs are
added for that batch, total_stored grows by min(m, n), and every stored
vector comes from the backend's response — none is fabricated.  The skipped
count and the embedded pairs are not part of the function's return value,
which is only the collection handle. -/
theorem C3_count_mismatch_truncation {α : Type} (emb : List String → EmbResult α)
    (batch : List String)
    (h : (get_embeddings (emb (batch.map clean_text))).length ≠ batch.length) :
    (processBatch emb batch).1.length
      = min (get_embeddings (emb (batch.map clean_text))).length batch.length ∧
    (processBatch emb batch).2
      = min (get_embeddings (emb (batch.map clean_text))).length batch.length ∧
    ∀ p ∈ (processBatch emb batch).1,
      p.2 ∈ get_embeddings (emb (batch.map clean_text)) := by
  have he := processBatch_mismatch_eq emb batch h
  refine ⟨?_, ?_, ?_⟩
  · rw [he]
    simp only [List.length_zip, List.length_take, List.length_map]
    omega
  · rw [he]
  · intro p hp
    rw [he] at hp
    exact List.take_subset _ _ (List.of_mem_zip hp).2

/-- C3 witness: five texts, three returned vectors, exactly three stored
pairs and two chunks skipped. -/
theorem C3_count_mismatch_truncation_witness :
    (get_embeddings (embThreeVectors
        ((["t1", "t2", "t3", "t4", "t5"] : List String).map clean_text))).length
      ≠ (["t1", "t2", "t3", "t4", "t5"] : List String).length ∧
    (processBatch embThreeVectors ["t1", "t2", "t3", "t4", "t5"]).1.length
      = min (get_embeddings (embThreeVectors
          ((["t1", "t2", "t3", "t4", "t5"] : List String).map clean_text))).length
          (["t1", "t2", "t3", "t4", "t5"] : List String).length ∧
    (["t1", "t2", "t3", "t4", "t5"] : List String).length
      - (processBatch embThreeVectors ["t1", "t2", "t3", "t4", "t5"]).2 = 2 :=
  ⟨by decide,
   (C3_count_mismatch_truncation embThreeVectors ["t1", "t2", "t3", "t4", "t5"] (by decide)).1,
   by decide⟩

/-- C3 counterexample: the claim says the embedding step returns to its
caller the embedded pairs together with the count of skipped chunks, but two
runs that skip different numbers of chunks (one text skipped versus nothing
to embed) return the very same value and leave the very same collection
state, so the return value carries no skipped count. -/
theorem C3_counterexample :
    create_chroma_collection true (fun _ => (EmbResult.raised : EmbResult Nat)) 10 ["a"]
        (.present [])
      = create_chroma_collection true (fun _ => (EmbResult.raised : EmbResult Nat)) 10 []
        (.present []) ∧
    (["a"] : List String).length
      - (ccBatchesF (fun _ => (EmbResult.raised : EmbResult Nat)) 10 1 ["a"]).2 = 1 ∧
    ([] : List String).length
      - (ccBatchesF (fun _ => (EmbResult.raised : EmbResult Nat)) 10 0 []).2 = 0 := by
  decide

/-! ## Claims C10 and C5: the upload pipeline fold -/

theorem processOne_all_texts (acc : S3ProcessResult × List String) (f : FileSpec) :
    (processOne acc f).1.all_texts
      = acc.1.all_texts ++ (match f.extracted with
          | .ok raw => [clean_text raw]
          | .raised _ => []) := by
  cases hf : f.extracted with
  | raised e => simp [processOne, hf]
  | ok raw =>
    simp only [processOne, hf]
    by_cases hk : generate_document_key f.name (clean_text raw) ∈ acc.2
    · simp [hk]
    · cases hu : upload_document_to_s3 f.clientOk f.putOutcome f.bytes f.name (clean_text raw) with
      | ok k u n => simp [hk, hu]
      | err e => simp [hk, hu]

theorem processFold_all_texts (files : List FileSpec) :
    ∀ (acc : S3ProcessResult × List String),
    (files.foldl processOne acc).1.all_texts
      = acc.1.all_texts ++ files.filterMap (fun f =>
          match f.extracted with
          | .ok raw => some (clean_text raw)
          | .raised _ => none) := by
  induction files with
  | nil => intro acc; simp
  | cons f fs ih =>
    intro acc
    rw [List.foldl_cons, ih (processOne acc f), processOne_all_texts]
    cases hf : f.extracted with
    | raised e => simp [List.filterMap_cons, hf]
    | ok raw => simp [List.filterMap_cons, hf]

/-- C10: all_texts collects, in input order, exactly the cleaned text of
every file whose read-and-extract step succeeded — whether its blob upload
succeeded, failed, or was skipped because the document was already present. -/
theorem C10_all_texts_characterization (s3 : List String) (files : List FileSpec) :
    (process_uploaded_files_with_s3 s3 files).all_texts
      = files.filterMap (fun f =>
          match f.extracted with
          | .ok raw => some (clean_text raw)
          | .raised _ => none) := by
  have h := processFold_all_texts files (emptyResult, s3)
  simpa [process_uploaded_files_with_s3, emptyResult] using h

theorem processOne_shift (r q : S3ProcessResult) (s3 : List String) (f : FileSpec) :
    processOne (combineResults r q, s3) f
      = (combineResults r (processOne (q, s3) f).1, (processOne (q, s3) f).2) := by
  cases hf : f.extracted with
  | raised e => simp [processOne, hf, combineResults, List.append_assoc]
  | ok raw =>
    by_cases hk : generate_document_key f.name (clean_text raw) ∈ s3
    · simp [processOne, hf, hk, combineResults, List.append_assoc]
    · cases hu : upload_document_to_s3 f.clientOk f.putOutcome f.bytes f.name (clean_text raw) with
      | ok k u n => simp [processOne, hf, hk, hu, combineResults, List.append_assoc]
      | err e => simp [processOne, hf, hk, hu, combineResults, List.append_assoc]

theorem processFold_shift (files : List FileSpec) :
    ∀ (r q : S3ProcessResult) (s3 : List String),
    files.foldl processOne (combineResults r q, s3)
      = (combineResults r (files.foldl processOne (q, s3)).1,
         (files.foldl processOne (q, s3)).2) := by
  induction files with
  | nil => intro r q s3; simp
  | cons f fs ih =>
    intro r q s3
    rw [List.foldl_cons, processOne_shift,
      ih r (processOne (q, s3) f).1 (processOne (q, s3) f).2]
    simp [List.foldl_cons]

theorem processFold_hom (files : List FileSpec) (x : S3ProcessResult) (s3 : List String) :
    files.foldl processOne (x, s3)
      = (combineResults x (files.foldl processOne (emptyResult, s3)).1,
         (files.foldl processOne (emptyResult, s3)).2) := by
  have h := processFold_shift files x emptyResult s3
  rwa [show combineResults x emptyResult = x from by
    simp [combineResults, emptyResult]] at h

/-- C5 (amended): a failure while extracting or uploading one document
records only that document as failed and changes no other document's stored,
already-present or failed outcome — an extraction exception contributes
nothing else, an upload failure still contributes the document's extracted
text to all_texts; the pipeline's structured result carries the uploaded,
already-present and failed lists together with the extracted texts
(all_texts), and no indexed chunk count. -/
theorem C5_partial_failure_isolation :
    (∀ (s3 : List String) (pre post : List FileSpec) (nm e : String) (bts : List Nat)
        (cOk : Bool) (po : S3Outcome Unit),
      (process_uploaded_files_with_s3 s3 (pre ++ ⟨nm, bts, .raised e, cOk, po⟩ :: post)).uploaded_to_s3
        = (process_uploaded_files_with_s3 s3 (pre ++ post)).uploaded_to_s3 ∧
      (process_uploaded_files_with_s3 s3 (pre ++ ⟨nm, bts, .raised e, cOk, po⟩ :: post)).already_in_s3
        = (process_uploaded_files_with_s3 s3 (pre ++ post)).already_in_s3 ∧
      (process_uploaded_files_with_s3 s3 (pre ++ ⟨nm, bts, .raised e, cOk, po⟩ :: post)).all_texts
        = (process_uploaded_files_with_s3 s3 (pre ++ post)).all_texts ∧
      (∃ A B, (process_uploaded_files_with_s3 s3 (pre ++ post)).failed_uploads = A ++ B ∧
        (process_uploaded_files_with_s3 s3 (pre ++ ⟨nm, bts, .raised e, cOk, po⟩ :: post)).failed_uploads
          = A ++ (nm, e) :: B)) ∧
    (∀ (s3 : List String) (pre post : List FileSpec) (nm raw msg : String) (bts : List Nat)
        (cOk : Bool) (po : S3Outcome Unit),
      upload_document_to_s3 cOk po bts nm (clean_text raw) = .err msg →
      generate_document_key nm (clean_text raw) ∉ (pre.foldl processOne (emptyResult, s3)).2 →
      (process_uploaded_files_with_s3 s3 (pre ++ ⟨nm, bts, .ok raw, cOk, po⟩ :: post)).uploaded_to_s3
        = (process_uploaded_files_with_s3 s3 (pre ++ post)).uploaded_to_s3 ∧
      (process_uploaded_files_with_s3 s3 (pre ++ ⟨nm, bts, .ok raw, cOk, po⟩ :: post)).already_in_s3
        = (process_uploaded_files_with_s3 s3 (pre ++ post)).already_in_s3 ∧
      (∃ A B, (process_uploaded_files_with_s3 s3 (pre ++ post)).failed_uploads = A ++ B ∧
        (process_uploaded_files_with_s3 s3 (pre ++ ⟨nm, bts, .ok raw, cOk, po⟩ :: post)).failed_uploads
          = A ++ (nm, msg) :: B) ∧
      (∃ T U, (process_uploaded_files_with_s3 s3 (pre ++ post)).all_texts = T ++ U ∧
        (process_uploaded_files_with_s3 s3 (pre ++ ⟨nm, bts, .ok raw, cOk, po⟩ :: post)).all_texts
          = T ++ clean_text raw :: U)) ∧
    process_result_dict_keys
      = ["uploaded_to_s3", "already_in_s3", "failed_uploads", "all_texts"] := by
  refine ⟨?_, ?_, rfl⟩
  · intro s3 pre post nm e bts cOk po
    unfold process_uploaded_files_with_s3
    rcases hpre : pre.foldl processOne (emptyResult, s3) with ⟨rp, sp⟩
    rw [List.foldl_append, List.foldl_append, hpre, List.foldl_cons]
    rw [show processOne (rp, sp) ⟨nm, bts, .raised e, cOk, po⟩
        = ({rp with failed_uploads := rp.failed_uploads ++ [(nm, e)]}, sp) from by
      simp [processOne]]
    rw [processFold_hom post {rp with failed_uploads := rp.failed_uploads ++ [(nm, e)]} sp,
      processFold_hom post rp sp]
    exact ⟨by simp [combineResults], by simp [combineResults], by simp [combineResults],
      ⟨rp.failed_uploads, (post.foldl processOne (emptyResult, sp)).1.failed_uploads,
        by simp [combineResults], by simp [combineResults]⟩⟩
  · intro s3 pre post nm raw msg bts cOk po hup hkey
    unfold process_uploaded_files_with_s3
    rcases hpre : pre.foldl processOne (emptyResult, s3) with ⟨rp, sp⟩
    rw [hpre] at hkey
    have hkey' : generate_document_key nm (clean_text raw) ∉ sp := hkey
    rw [List.foldl_append, List.foldl_append, hpre, List.foldl_cons]
    rw [show processOne (rp, sp) ⟨nm, bts, .ok raw, cOk, po⟩
        = ({rp with failed_uploads := rp.failed_uploads ++ [(nm, msg)],
                    all_texts := rp.all_texts ++ [clean_text raw]}, sp) from by
      simp [processOne, hkey', hup]]
    rw [processFold_hom post ({rp with failed_uploads := rp.failed_uploads ++ [(nm, msg)], all_texts := rp.all_texts ++ [clean_text raw]}) sp,
      processFold_hom post rp sp]
    exact ⟨by simp [combineResults], by simp [combineResults],
      ⟨rp.failed_uploads, (post.foldl processOne (emptyResult, sp)).1.failed_uploads,
        by simp [combineResults], by simp [combineResults]⟩,
      ⟨rp.all_texts, (post.foldl processOne (emptyResult, sp)).1.all_texts,
        by simp [combineResults], by simp [combineResults]⟩⟩

/-- C5 witness: a middle document whose upload raises (caught and reported
as an error result) leaves its neighbors' outcomes unchanged and is the only
failure recorded. -/
theorem C5_partial_failure_isolation_witness :
    upload_document_to_s3 true (.otherExn "timeout") [2] "b.pdf" (clean_text "beta")
      = .err "timeout" ∧
    generate_document_key "b.pdf" (clean_text "beta")
      ∉ (([⟨"a.pdf", [1], .ok "alpha", true, .ok ()⟩] : List FileSpec).foldl
          processOne (emptyResult, [])).2 ∧
    (process_uploaded_files_with_s3 []
        ([⟨"a.pdf", [1], .ok "alpha", true, .ok ()⟩]
          ++ ⟨"b.pdf", [2], .ok "beta", true, .otherExn "timeout"⟩
            :: [⟨"c.pdf", [3], .ok "gamma", true, .ok ()⟩])).uploaded_to_s3
      = (process_uploaded_files_with_s3 []
          ([⟨"a.pdf", [1], .ok "alpha", true, .ok ()⟩]
            ++ [⟨"c.pdf", [3], .ok "gamma", true, .ok ()⟩])).uploaded_to_s3 ∧
    (process_uploaded_files_with_s3 []
        [⟨"a.pdf", [1], .ok "alpha", true, .ok ()⟩,
         ⟨"b.pdf", [2], .ok "beta", true, .otherExn "timeout"⟩,
         ⟨"c.pdf", [3], .ok "gamma", true, .ok ()⟩]).failed_uploads
      = [("b.pdf", "timeout")] :=
  ⟨by decide, by decide,
   (C5_partial_failure_isolation.2.1 [] [⟨"a.pdf", [1], .ok "alpha", true, .ok ()⟩]
      [⟨"c.pdf", [3], .ok "gamma", true, .ok ()⟩] "b.pdf" "beta" "timeout" [2] true
      (.otherExn "timeout") (by decide) (by decide)).1,
   by decide⟩

/-- C5 counterexample: the structured result of the pipeline has exactly the
four keys uploaded_to_s3, already_in_s3, failed_uploads and all_texts — it
contains no indexed chunk count, contrary to the claim's reading of the
returned record. -/
theorem C5_counterexample :
    "indexed_chunk_count" ∉ process_result_dict_keys ∧
    process_uploaded_files_with_s3 [] [⟨"a.pdf", [1], .ok "hello", true, .ok ()⟩]
      = ⟨[("a.pdf", "documents/5d41402a_a.pdf")], [], [], ["hello"]⟩ := by
  decide

/-! ## Claim C2: sliding-window chunking -/

theorem chunkLoop_ne_nil (C step fuel : Nat) (s : List Char) (hf : 1 ≤ fuel) :
    chunkLoop C step fuel s ≠ [] := by
  cases fuel with
  | zero => omega
  | succ fuel => simp [chunkLoop]

theorem reconstruct_cons (step : Nat) (c : List Char) (cs : List (List Char))
    (h : cs ≠ []) : reconstruct step (c :: cs) = c.take step ++ reconstruct step cs := by
  cases cs with
  | nil => exact absurd rfl h
  | cons c' cs' => rfl

theorem chunkLoop_length (C O : Nat) (hO : O < C) :
    ∀ (n : Nat) (s : List Char) (fuel : Nat), 1 ≤ s.length → s.length ≤ n → s.length ≤ fuel →
    (chunkLoop C (C - O) fuel s).length
      = if s.length ≤ C then 1 else (s.length - O + (C - O) - 1) / (C - O) := by
  intro n
  induction n with
  | zero => intro s fuel h1 h2 _; omega
  | succ n ih =>
    intro s fuel h1 h2 hf
    cases fuel with
    | zero => omega
    | succ fuel =>
      by_cases hC : C < s.length
      · have hS1 : 1 ≤ C - O := by omega
        have hlen : (s.drop (C - O)).length = s.length - (C - O) := List.length_drop _ _
        have h1' : 1 ≤ (s.drop (C - O)).length := by omega
        have h2' : (s.drop (C - O)).length ≤ n := by omega
        have hf' : (s.drop (C - O)).length ≤ fuel := by omega
        simp only [chunkLoop, if_pos hC, List.length_cons]
        rw [ih (s.drop (C - O)) fuel h1' h2' hf', hlen,
          if_neg (show ¬ s.length ≤ C by omega)]
        by_cases hsmall : s.length - (C - O) ≤ C
        · have hdiv : (s.length - O + (C - O) - 1) / (C - O) = 2 :=
            Nat.div_eq_of_lt_le (by omega) (by omega)
          rw [if_pos hsmall, hdiv]
        · rw [if_neg hsmall,
            show s.length - O + (C - O) - 1
              = (s.length - (C - O) - O + (C - O) - 1) + (C - O) by omega,
            Nat.add_div_right _ (show 0 < C - O by omega)]
      · simp only [chunkLoop, if_neg hC, if_pos (by omega : s.length ≤ C)]
        rfl

theorem chunkLoop_reconstruct (C O : Nat) (hO : O < C) :
    ∀ (n : Nat) (s : List Char) (fuel : Nat), 1 ≤ s.length → s.length ≤ n → s.length ≤ fuel →
    reconstruct (C - O) (chunkLoop C (C - O) fuel s) = s := by
  intro n
  induction n with
  | zero => intro s fuel h1 h2 _; omega
  | succ n ih =>
    intro s fuel h1 h2 hf
    cases fuel with
    | zero => omega
    | succ fuel =>
      by_cases hC : C < s.length
      · have hS1 : 1 ≤ C - O := by omega
        have hlen : (s.drop (C - O)).length = s.length - (C - O) := List.length_drop _ _
        have h1' : 1 ≤ (s.drop (C - O)).length := by omega
        have h2' : (s.drop (C - O)).length ≤ n := by omega
        have hf' : (s.drop (C - O)).length ≤ fuel := by omega
        simp only [chunkLoop, if_pos hC]
        rw [reconstruct_cons _ _ _ (chunkLoop_ne_nil C (C - O) fuel (s.drop (C - O)) (by omega)),
          ih (s.drop (C - O)) fuel h1' h2' hf', List.take_take,
          min_eq_left (Nat.sub_le C O)]
        exact List.take_append_drop _ _
      · simp only [chunkLoop, if_neg hC]
        show s.take C = s
        exact List.take_of_length_le (by omega)

/-- C2: for overlap O smaller than chunk size C, the sliding-window chunker
produces, on text of length L, no chunks when L = 0, one chunk when
0 < L ≤ C, and otherwise ceil((L - O) / (C - O)) chunks; and concatenating
the chunks' non-overlapping portions reconstructs the text exactly. -/
theorem C2_chunking (C O : Nat) (hO : O < C) (s : List Char) :
    (split_text C O s).length
      = (if s.length = 0 then 0
         else if s.length ≤ C then 1
         else (s.length - O + (C - O) - 1) / (C - O)) ∧
    reconstruct (C - O) (split_text C O s) = s := by
  by_cases h0 : s.length = 0
  · have hnil : s = [] := List.length_eq_zero.mp h0
    subst hnil
    exact ⟨rfl, rfl⟩
  · have h1 : 1 ≤ s.length := by omega
    refine ⟨?_, ?_⟩
    · rw [split_text, if_neg h0,
        chunkLoop_length C O hO s.length s s.length h1 le_rfl le_rfl, if_neg h0]
    · rw [split_text, if_neg h0]
      exact chunkLoop_reconstruct C O hO s.length s s.length h1 le_rfl le_rfl

/-- C2 witness on the example text of the spec with chunk size 40 and
overlap 10: two chunks whose non-overlapping portions rebuild the text. -/
theorem C2_chunking_witness :
    (10 : Nat) < 40 ∧
    ((split_text 40 10 "Blood pressure 120/80. Patient reports mild headache.".data).length
      = (if ("Blood pressure 120/80. Patient reports mild headache.".data).length = 0 then 0
         else if ("Blood pressure 120/80. Patient reports mild headache.".data).length ≤ 40 then 1
         else (("Blood pressure 120/80. Patient reports mild headache.".data).length - 10
            + (40 - 10) - 1) / (40 - 10)) ∧
     reconstruct (40 - 10)
        (split_text 40 10 "Blood pressure 120/80. Patient reports mild headache.".data)
      = "Blood pressure 120/80. Patient reports mild headache.".data) ∧
    (split_text 40 10 "Blood pressure 120/80. Patient reports mild headache.".data).length = 2 :=
  ⟨by decide,
   C2_chunking 40 10 (by decide) "Blood pressure 120/80. Patient reports mild headache.".data,
   by decide⟩

/-! ## Claim C9: clean_text is idempotent

The proof shows that the output of clean_text is a fixed point of each of
its stages: it contains no tag match (tagFreeB), its whitespace is
normalized (wsNormB), hence it has no newline, and it is stripped. -/

theorem mem_dropWhile_imp_mem (p : Char → Bool) :
    ∀ (l : List Char) (x : Char), x ∈ l.dropWhile p → x ∈ l := by
  intro l
  induction l with
  | nil => intro x h; simp at h
  | cons c rest ih =>
    intro x h
    rw [List.dropWhile_cons] at h
    by_cases hc : p c = true
    · rw [if_pos hc] at h
      exact List.mem_cons_of_mem c (ih x h)
    · rw [if_neg hc] at h
      exact h

theorem length_dropWhile_le_length (p : Char → Bool) :
    ∀ (l : List Char), (l.dropWhile p).length ≤ l.length := by
  intro l
  induction l with
  | nil => simp
  | cons r rr ihr =>
    rw [List.dropWhile_cons]
    by_cases hr : p r = true
    · rw [if_pos hr]
      simp only [List.length_cons]
      omega
    · rw [if_neg hr]

theorem removeTagsF_nil : ∀ fuel, removeTagsF fuel [] = [] := by
  intro fuel
  cases fuel <;> rfl

theorem mem_removeTagsF :
    ∀ (fuel : Nat) (l : List Char) (x : Char), x ∈ removeTagsF fuel l → x ∈ l := by
  intro fuel
  induction fuel with
  | zero => intro l x h; exact h
  | succ fuel ih =>
    intro l x h
    cases l with
    | nil => exact h
    | cons c rest =>
      by_cases hg : tagGuard c rest = true
      · simp only [removeTagsF, if_pos hg] at h
        have h1 := ih _ x h
        have h2 : x ∈ rest.dropWhile (fun d => d != '>') := List.drop_subset _ _ h1
        exact List.mem_cons_of_mem c (mem_dropWhile_imp_mem _ rest x h2)
      · simp only [removeTagsF, if_neg hg] at h
        rcases List.mem_cons.mp h with h | h
        · exact h ▸ List.mem_cons_self c rest
        · exact List.mem_cons_of_mem c (ih rest x h)

theorem removeTagsF_eq_self :
    ∀ (fuel : Nat) (l : List Char), tagFreeB l = true → removeTagsF fuel l = l := by
  intro fuel
  induction fuel with
  | zero => intro l _; rfl
  | succ fuel ih =>
    intro l h
    cases l with
    | nil => rfl
    | cons c rest =>
      simp only [tagFreeB, Bool.and_eq_true, Bool.not_eq_true'] at h
      simp only [removeTagsF, if_neg (show ¬ tagGuard c rest = true by simp [h.1])]
      rw [ih rest h.2]

theorem tagGuard_eq_false_iff (c : Char) (rest : List Char) :
    tagGuard c rest = false ↔
      (c == '<') = false ∨ (rest.takeWhile (fun d => d != '>')).isEmpty = true ∨
      rest.contains '>' = false := by
  unfold tagGuard
  cases c == '<' <;> cases (rest.takeWhile (fun d => d != '>')).isEmpty <;>
    cases rest.contains '>' <;> simp

theorem takeWhile_isEmpty_cases (rest : List Char)
    (h : (rest.takeWhile (fun d => d != '>')).isEmpty = true) :
    rest = [] ∨ ∃ r2, rest = '>' :: r2 := by
  cases rest with
  | nil => exact Or.inl rfl
  | cons r0 rr =>
    rw [List.takeWhile_cons] at h
    by_cases h0 : (r0 != '>') = true
    · rw [if_pos h0] at h
      simp at h
    · have hr : r0 = '>' := by simpa using h0
      exact Or.inr ⟨rr, by rw [hr]⟩

theorem takeWhile_gt_head_isEmpty (r2 : List Char) :
    (('>' :: r2).takeWhile (fun d => d != '>')).isEmpty = true := by
  simp [List.takeWhile_cons]

theorem tagGuard_false_removeTagsF (c : Char) :
    ∀ (fuel : Nat) (rest : List Char), tagGuard c rest = false →
    tagGuard c (removeTagsF fuel rest) = false := by
  intro fuel rest h
  rcases (tagGuard_eq_false_iff c rest).mp h with hc | ht | hcont
  · exact (tagGuard_eq_false_iff _ _).mpr (Or.inl hc)
  · rcases takeWhile_isEmpty_cases rest ht with rfl | ⟨r2, rfl⟩
    · rw [removeTagsF_nil]
      exact (tagGuard_eq_false_iff _ _).mpr (Or.inr (Or.inl rfl))
    · cases fuel with
      | zero => exact h
      | succ fuel =>
        have hg : ¬ tagGuard '>' r2 = true := by simp [tagGuard]
        simp only [removeTagsF, if_neg hg]
        exact (tagGuard_eq_false_iff _ _).mpr
          (Or.inr (Or.inl (takeWhile_gt_head_isEmpty _)))
  · refine (tagGuard_eq_false_iff _ _).mpr (Or.inr (Or.inr ?_))
    have hmem : '>' ∉ rest := by simpa [List.elem_eq_mem] using hcont
    have : '>' ∉ removeTagsF fuel rest := fun hx => hmem (mem_removeTagsF fuel rest '>' hx)
    simpa [List.elem_eq_mem] using this

theorem tagFreeB_removeTagsF :
    ∀ (fuel : Nat) (l : List Char), l.length ≤ fuel → tagFreeB (removeTagsF fuel l) = true := by
  intro fuel
  induction fuel with
  | zero =>
    intro l h
    have : l = [] := List.length_eq_zero.mp (Nat.le_zero.mp h)
    subst this
    rfl
  | succ fuel ih =>
    intro l h
    cases l with
    | nil => rfl
    | cons c rest =>
      have hlen : rest.length ≤ fuel := by
        simp only [List.length_cons] at h
        omega
      by_cases hg : tagGuard c rest = true
      · simp only [removeTagsF, if_pos hg]
        have h2 : ((rest.dropWhile (fun d => d != '>')).drop 1).length ≤ fuel := by
          have hd := length_dropWhile_le_length (fun d => d != '>') rest
          have := List.length_drop 1 (rest.dropWhile (fun d => d != '>'))
          omega
        exact ih _ h2
      · simp only [removeTagsF, if_neg hg]
        have hg' : tagGuard c rest = false := by
          cases hgv : tagGuard c rest
          · rfl
          · exact absurd hgv hg
        simp only [tagFreeB, Bool.and_eq_true, Bool.not_eq_true']
        exact ⟨tagGuard_false_removeTagsF c fuel rest hg', ih rest hlen⟩

theorem collapseWsF_nil : ∀ fuel, collapseWsF fuel [] = [] := by
  intro fuel
  cases fuel <;> rfl

theorem mem_collapseWsF :
    ∀ (fuel : Nat) (l : List Char) (x : Char), x ∈ collapseWsF fuel l → x = ' ' ∨ x ∈ l := by
  intro fuel
  induction fuel with
  | zero => intro l x h; exact Or.inr h
  | succ fuel ih =>
    intro l x h
    cases l with
    | nil => exact Or.inr h
    | cons c rest =>
      by_cases hc : pyWs c = true
      · simp only [collapseWsF, if_pos hc] at h
        rcases List.mem_cons.mp h with he | hm
        · exact Or.inl he
        · rcases ih _ x hm with he | hm2
          · exact Or.inl he
          · exact Or.inr (List.mem_cons_of_mem c (mem_dropWhile_imp_mem pyWs rest x hm2))
      · simp only [collapseWsF, if_neg hc] at h
        rcases List.mem_cons.mp h with he | hm
        · exact Or.inr (he ▸ List.mem_cons_self c rest)
        · rcases ih rest x hm with he | hm2
          · exact Or.inl he
          · exact Or.inr (List.mem_cons_of_mem c hm2)

theorem tagFreeB_tail (c : Char) (l : List Char) (h : tagFreeB (c :: l) = true) :
    tagFreeB l = true := by
  simp only [tagFreeB, Bool.and_eq_true] at h
  exact h.2

theorem tagGuard_false_collapseWsF (c : Char) :
    ∀ (fuel : Nat) (rest : List Char), tagGuard c rest = false →
    tagGuard c (collapseWsF fuel rest) = false := by
  intro fuel rest h
  rcases (tagGuard_eq_false_iff c rest).mp h with hc | ht | hcont
  · exact (tagGuard_eq_false_iff _ _).mpr (Or.inl hc)
  · rcases takeWhile_isEmpty_cases rest ht with rfl | ⟨r2, rfl⟩
    · rw [collapseWsF_nil]
      exact (tagGuard_eq_false_iff _ _).mpr (Or.inr (Or.inl rfl))
    · cases fuel with
      | zero => exact h
      | succ fuel =>
        have hgt : pyWs '>' = false := by decide
        simp only [collapseWsF, if_neg (show ¬ pyWs '>' = true by simp [hgt])]
        exact (tagGuard_eq_false_iff _ _).mpr
          (Or.inr (Or.inl (takeWhile_gt_head_isEmpty _)))
  · refine (tagGuard_eq_false_iff _ _).mpr (Or.inr (Or.inr ?_))
    have hmem : '>' ∉ rest := by simpa [List.elem_eq_mem] using hcont
    have : '>' ∉ collapseWsF fuel rest := by
      intro hx
      rcases mem_collapseWsF fuel rest '>' hx with he | hm
      · exact absurd he (by decide)
      · exact hmem hm
    simpa [List.elem_eq_mem] using this

theorem tagFreeB_dropWhile (p : Char → Bool) :
    ∀ (l : List Char), tagFreeB l = true → tagFreeB (l.dropWhile p) = true := by
  intro l
  induction l with
  | nil => intro h; exact h
  | cons c rest ih =>
    intro h
    rw [List.dropWhile_cons]
    by_cases hc : p c = true
    · rw [if_pos hc]
      exact ih (tagFreeB_tail c rest h)
    · rw [if_neg hc]
      exact h

theorem tagFreeB_collapseWsF :
    ∀ (fuel : Nat) (l : List Char), tagFreeB l = true →
    tagFreeB (collapseWsF fuel l) = true := by
  intro fuel
  induction fuel with
  | zero => intro l h; exact h
  | succ fuel ih =>
    intro l h
    cases l with
    | nil => rfl
    | cons c rest =>
      simp only [tagFreeB, Bool.and_eq_true, Bool.not_eq_true'] at h
      by_cases hc : pyWs c = true
      · simp only [collapseWsF, if_pos hc]
        simp only [tagFreeB, Bool.and_eq_true, Bool.not_eq_true']
        constructor
        · exact (tagGuard_eq_false_iff _ _).mpr (Or.inl (by decide))
        · exact ih _ (tagFreeB_dropWhile pyWs rest h.2)
      · simp only [collapseWsF, if_neg hc]
        simp only [tagFreeB, Bool.and_eq_true, Bool.not_eq_true']
        exact ⟨tagGuard_false_collapseWsF c fuel rest h.1, ih rest h.2⟩

theorem dropWhile_head_not (p : Char → Bool) :
    ∀ (l : List Char), l.dropWhile p = [] ∨
      ∃ h t, l.dropWhile p = h :: t ∧ p h = false := by
  intro l
  induction l with
  | nil => exact Or.inl rfl
  | cons c rest ih =>
    rw [List.dropWhile_cons]
    by_cases hc : p c = true
    · rw [if_pos hc]
      exact ih
    · rw [if_neg hc]
      refine Or.inr ⟨c, rest, rfl, ?_⟩
      cases hv : p c
      · rfl
      · exact absurd hv hc

theorem collapseWsF_head_not_ws :
    ∀ (fuel : Nat) (l : List Char),
    (l = [] ∨ ∃ h t, l = h :: t ∧ pyWs h = false) →
    (collapseWsF fuel l = [] ∨
      ∃ h t, collapseWsF fuel l = h :: t ∧ pyWs h = false) := by
  intro fuel l hl
  rcases hl with rfl | ⟨hh, tt, rfl, hws⟩
  · rw [collapseWsF_nil]
    exact Or.inl rfl
  · cases fuel with
    | zero => exact Or.inr ⟨hh, tt, rfl, hws⟩
    | succ fuel =>
      simp only [collapseWsF, if_neg (show ¬ pyWs hh = true by simp [hws])]
      exact Or.inr ⟨hh, collapseWsF fuel tt, rfl, hws⟩

theorem wsNormB_tail (c : Char) (l : List Char) (h : wsNormB (c :: l) = true) :
    wsNormB l = true := by
  cases l with
  | nil => rfl
  | cons d rest =>
    simp only [wsNormB, Bool.and_eq_true] at h
    exact h.2

theorem wsNormB_collapseWsF :
    ∀ (fuel : Nat) (l : List Char), l.length ≤ fuel →
    wsNormB (collapseWsF fuel l) = true := by
  intro fuel
  induction fuel with
  | zero =>
    intro l h
    have : l = [] := List.length_eq_zero.mp (Nat.le_zero.mp h)
    subst this
    rfl
  | succ fuel ih =>
    intro l h
    cases l with
    | nil => rfl
    | cons c rest =>
      simp only [List.length_cons] at h
      by_cases hc : pyWs c = true
      · simp only [collapseWsF, if_pos hc]
        have hlen : (rest.dropWhile pyWs).length ≤ fuel :=
          le_trans (length_dropWhile_le_length pyWs rest) (by omega)
        have hX := ih (rest.dropWhile pyWs) hlen
        rcases collapseWsF_head_not_ws fuel (rest.dropWhile pyWs)
            (dropWhile_head_not pyWs rest) with hnil | ⟨hh, tt, hEq, hws⟩
        · rw [hnil]
          decide
        · rw [hEq]
          simp only [wsNormB, Bool.and_eq_true]
          refine ⟨by simp [hws], ?_⟩
          rw [← hEq]
          exact hX
      · simp only [collapseWsF, if_neg hc]
        have hX := ih rest (by omega)
        cases hXv : collapseWsF fuel rest with
        | nil => simp [wsNormB, hc]
        | cons hh tt =>
          simp only [wsNormB, Bool.and_eq_true]
          refine ⟨by simp [hc], ?_⟩
          rw [← hXv]
          exact hX

theorem wsNormB_head (c : Char) (l : List Char) (h : wsNormB (c :: l) = true)
    (hws : pyWs c = true) : c = ' ' := by
  cases l with
  | nil =>
    simp only [wsNormB, hws, Bool.not_true, Bool.false_or] at h
    simpa using h
  | cons d rest =>
    simp only [wsNormB, Bool.and_eq_true] at h
    have h1 := h.1
    rw [Bool.or_eq_true] at h1
    rcases h1 with h1 | h1
    · rw [hws] at h1
      simp at h1
    · rw [Bool.and_eq_true] at h1
      simpa using h1.1

theorem collapseWsF_eq_self :
    ∀ (fuel : Nat) (l : List Char), wsNormB l = true → collapseWsF fuel l = l := by
  intro fuel
  induction fuel with
  | zero => intro l _; rfl
  | succ fuel ih =>
    intro l h
    cases l with
    | nil => rfl
    | cons c rest =>
      by_cases hc : pyWs c = true
      · have hce : c = ' ' := wsNormB_head c rest h hc
        cases rest with
        | nil =>
          simp only [collapseWsF, if_pos hc, List.dropWhile_nil, collapseWsF_nil]
          rw [hce]
        | cons d rr =>
          simp only [wsNormB, Bool.and_eq_true] at h
          have hd : pyWs d = false := by
            have h1 := h.1
            rw [Bool.or_eq_true] at h1
            rcases h1 with h1 | h1
            · rw [hc] at h1
              simp at h1
            · rw [Bool.and_eq_true] at h1
              simpa using h1.2
          simp only [collapseWsF, if_pos hc, List.dropWhile_cons,
            if_neg (show ¬ pyWs d = true by simp [hd])]
          rw [ih (d :: rr) h.2, hce]
      · simp only [collapseWsF, if_neg hc]
        rw [ih rest (wsNormB_tail c rest h)]

theorem not_mem_nl_of_wsNormB : ∀ (l : List Char), wsNormB l = true → '\n' ∉ l := by
  intro l
  induction l with
  | nil => intro _ hm; simp at hm
  | cons c rest ih =>
    intro h hm
    rcases List.mem_cons.mp hm with he | hm2
    · have hws : pyWs c = true := by rw [← he]; decide
      have hsp := wsNormB_head c rest h hws
      rw [← he] at hsp
      exact absurd hsp (by decide)
    · exact ih (wsNormB_tail c rest h) hm2

theorem nlSubF_eq_self : ∀ (fuel : Nat) (l : List Char), '\n' ∉ l → nlSubF fuel l = l := by
  intro fuel
  induction fuel with
  | zero => intro l _; rfl
  | succ fuel ih =>
    intro l h
    cases l with
    | nil => rfl
    | cons c rest =>
      have hc : ¬ c = '\n' := fun he => h (he ▸ List.mem_cons_self c rest)
      simp only [nlSubF,
        if_neg (show ¬ ((c == '\n' && (rest.takeWhile pyWs).contains '\n') = true) by
          simp [hc])]
      rw [ih rest (fun hm => h (List.mem_cons_of_mem c hm))]

theorem dropWhile_dropWhile (p : Char → Bool) (l : List Char) :
    (l.dropWhile p).dropWhile p = l.dropWhile p := by
  rcases dropWhile_head_not p l with hnil | ⟨hh, tt, hEq, hp⟩
  · rw [hnil]
    rfl
  · rw [hEq, List.dropWhile_cons, if_neg (by simp [hp])]

theorem rstripL_idem (l : List Char) : rstripL (rstripL l) = rstripL l := by
  unfold rstripL
  rw [List.reverse_reverse, dropWhile_dropWhile]

theorem rstripL_append_decomp (l : List Char) :
    l = rstripL l ++ (l.reverse.takeWhile pyWs).reverse := by
  unfold rstripL
  conv_lhs => rw [← List.reverse_reverse l,
    ← List.takeWhile_append_dropWhile pyWs l.reverse]
  rw [List.reverse_append]

theorem dropWhile_rstripL (w : List Char) (hw : w.dropWhile pyWs = w) :
    (rstripL w).dropWhile pyWs = rstripL w := by
  cases hu : rstripL w with
  | nil => rfl
  | cons h t =>
    have hdec := rstripL_append_decomp w
    rw [hu] at hdec
    have hh : pyWs h = false := by
      cases hv : pyWs h
      · rfl
      · exfalso
        rw [hdec, List.cons_append, List.dropWhile_cons, if_pos hv] at hw
        have hlen := congrArg List.length hw
        have hle := length_dropWhile_le_length pyWs (t ++ (w.reverse.takeWhile pyWs).reverse)
        simp only [List.length_cons] at hlen
        omega
    rw [List.dropWhile_cons, if_neg (by simp [hh])]

theorem stripL_idem (l : List Char) : stripL (stripL l) = stripL l := by
  unfold stripL
  rw [dropWhile_rstripL (l.dropWhile pyWs) (dropWhile_dropWhile pyWs l), rstripL_idem]

theorem tagFreeB_append_right :
    ∀ (a b : List Char), tagFreeB (a ++ b) = true → tagFreeB b = true := by
  intro a
  induction a with
  | nil => intro b h; exact h
  | cons c a' ih =>
    intro b h
    rw [List.cons_append] at h
    exact ih b (tagFreeB_tail c (a' ++ b) h)

theorem tagGuard_append_true (c : Char) (a b : List Char)
    (h : tagGuard c a = true) : tagGuard c (a ++ b) = true := by
  simp only [tagGuard, Bool.and_eq_true, Bool.not_eq_true'] at h ⊢
  obtain ⟨⟨hc, hne⟩, hcont⟩ := h
  refine ⟨⟨hc, ?_⟩, ?_⟩
  · cases a with
    | nil => simp at hne
    | cons a0 aa =>
      rw [List.takeWhile_cons] at hne
      by_cases h0 : (a0 != '>') = true
      · rw [List.cons_append, List.takeWhile_cons, if_pos h0]
        simp
      · rw [if_neg h0] at hne
        simp at hne
  · have hm : '>' ∈ a := by simpa [List.elem_eq_mem] using hcont
    simpa [List.elem_eq_mem] using List.mem_append_left b hm

theorem tagFreeB_append_left :
    ∀ (a b : List Char), tagFreeB (a ++ b) = true → tagFreeB a = true := by
  intro a
  induction a with
  | nil => intro b _; rfl
  | cons c a' ih =>
    intro b h
    rw [List.cons_append] at h
    simp only [tagFreeB, Bool.and_eq_true, Bool.not_eq_true'] at h ⊢
    refine ⟨?_, ih b h.2⟩
    cases hv : tagGuard c a'
    · rfl
    · have := tagGuard_append_true c a' b hv
      rw [h.1] at this
      simp at this

theorem wsNormB_append_right :
    ∀ (a b : List Char), wsNormB (a ++ b) = true → wsNormB b = true := by
  intro a
  induction a with
  | nil => intro b h; exact h
  | cons c a' ih =>
    intro b h
    rw [List.cons_append] at h
    exact ih b (wsNormB_tail c (a' ++ b) h)

theorem wsNormB_append_left :
    ∀ (a b : List Char), wsNormB (a ++ b) = true → wsNormB a = true := by
  intro a
  induction a with
  | nil => intro b _; rfl
  | cons x a' ih =>
    intro b h
    cases a' with
    | nil =>
      cases b with
      | nil => simpa using h
      | cons y bb =>
        simp only [List.cons_append, List.nil_append, wsNormB, Bool.and_eq_true] at h
        have h1 := h.1
        rw [Bool.or_eq_true] at h1
        simp only [wsNormB]
        rcases h1 with h1 | h1
        · simp [h1]
        · rw [Bool.and_eq_true] at h1
          simp [h1.1]
    | cons y a'' =>
      simp only [List.cons_append, wsNormB, Bool.and_eq_true] at h ⊢
      exact ⟨h.1, ih b h.2⟩

theorem tagFreeB_stripL (l : List Char) (h : tagFreeB l = true) :
    tagFreeB (stripL l) = true := by
  unfold stripL
  have h1 : tagFreeB (l.dropWhile pyWs) = true :=
    tagFreeB_append_right (l.takeWhile pyWs) (l.dropWhile pyWs)
      (by rw [List.takeWhile_append_dropWhile]; exact h)
  exact tagFreeB_append_left _ _
    (by rw [← rstripL_append_decomp (l.dropWhile pyWs)]; exact h1)

theorem wsNormB_stripL (l : List Char) (h : wsNormB l = true) :
    wsNormB (stripL l) = true := by
  unfold stripL
  have h1 : wsNormB (l.dropWhile pyWs) = true :=
    wsNormB_append_right (l.takeWhile pyWs) (l.dropWhile pyWs)
      (by rw [List.takeWhile_append_dropWhile]; exact h)
  exact wsNormB_append_left _ _
    (by rw [← rstripL_append_decomp (l.dropWhile pyWs)]; exact h1)

theorem cleanList_idem (l : List Char) : cleanList (cleanList l) = cleanList l := by
  have hT0 : tagFreeB (removeTags l) = true := tagFreeB_removeTagsF l.length l le_rfl
  have hT1 : tagFreeB (collapseWs (removeTags l)) = true :=
    tagFreeB_collapseWsF (removeTags l).length (removeTags l) hT0
  have hW1 : wsNormB (collapseWs (removeTags l)) = true :=
    wsNormB_collapseWsF (removeTags l).length (removeTags l) le_rfl
  have hN1 : nlSub (collapseWs (removeTags l)) = collapseWs (removeTags l) :=
    nlSubF_eq_self _ _ (not_mem_nl_of_wsNormB _ hW1)
  have hTu : tagFreeB (stripL (collapseWs (removeTags l))) = true := tagFreeB_stripL _ hT1
  have hWu : wsNormB (stripL (collapseWs (removeTags l))) = true := wsNormB_stripL _ hW1
  unfold cleanList
  rw [hN1]
  have hR : removeTags (stripL (collapseWs (removeTags l)))
      = stripL (collapseWs (removeTags l)) :=
    removeTagsF_eq_self _ _ hTu
  rw [hR]
  have hC : collapseWs (stripL (collapseWs (removeTags l)))
      = stripL (collapseWs (removeTags l)) :=
    collapseWsF_eq_self _ _ hWu
  rw [hC]
  have hN2 : nlSub (stripL (collapseWs (removeTags l)))
      = stripL (collapseWs (removeTags l)) :=
    nlSubF_eq_self _ _ (not_mem_nl_of_wsNormB _ hWu)
  rw [hN2]
  exact stripL_idem _

/-- C9: clean_text is idempotent, so the pipeline's second application of
cleaning on the already-cleaned output of extract_text_from_pdf changes
neither the text nor the storage key derived from it. -/
theorem C9_clean_text_idempotent :
    (∀ s : String, clean_text (clean_text s) = clean_text s) ∧
    (∀ (pages : List String) (f : String),
        clean_text (extract_text_from_pdf pages) = extract_text_from_pdf pages ∧
        generate_document_key f (clean_text (extract_text_from_pdf pages))
          = generate_document_key f (extract_text_from_pdf pages)) := by
  have main : ∀ s : String, clean_text (clean_text s) = clean_text s := by
    intro s
    by_cases h0 : s = ""
    · subst h0
      rfl
    · have hs : clean_text s = ⟨cleanList s.data⟩ := by rw [clean_text, if_neg h0]
      rw [hs]
      by_cases h1 : (⟨cleanList s.data⟩ : String) = ""
      · rw [clean_text, if_pos h1]
        exact h1.symm
      · rw [clean_text, if_neg h1]
        exact congrArg String.mk (cleanList_idem s.data)
  refine ⟨main, fun pages f => ?_⟩
  have h' : clean_text (extract_text_from_pdf pages) = extract_text_from_pdf pages :=
    main (pages.foldl (fun a p => a ++ p) " ")
  exact ⟨h', congrArg (fun t => generate_document_key f t) h'⟩

end MediChat
